import Mathlib

set_option linter.unusedVariables false

/-!
# Verification of the lantern feed module (`feed.go`)

Shallow embedding of the feed retrieval-and-reshaping logic of
`src/github.com/getlantern/lantern/feed.go` together with theorems
checking the specification's claims against it.

Modelling conventions:

* Go strings on which only equality/concatenation is performed (titles,
  links, locales, URLs) are Lean `String`s.  The description value, on
  which the code performs byte-oriented operations (`strings.TrimSpace`,
  `len`, `desc[:min]`), is modelled as a list of bytes (`Bytes`).
* Go maps are modelled as association lists; iteration order of a Go map
  is unspecified, the list order stands for one arbitrary iteration
  order.  Reading a missing key yields the zero value, as in Go
  (`mapGet` below).
* The dynamic value stored in an entry's `Meta` map
  (`map[string]interface{}`) is modelled by `MetaVal`: the nil
  interface (`vnil`, which is also what reading an absent key yields),
  a string (`vstr`), or any other non-nil value (`vother`).  The Go
  code applies the unchecked type assertion `aDesc.(string)`, which
  panics on `vother`; fallible computations return `Option`, `none`
  standing for a fatal runtime fault (panic).
* Effects on the caller-supplied sinks (`FeedProvider.AddSource`,
  `FeedRetriever.AddFeed`/`Finish`) are recorded as lists of the calls
  made, in order.
-/

/-- Byte strings: a Go string viewed as its UTF-8 bytes. -/
abbrev Bytes := List Nat

/-! ## `strings.TrimSpace`, byte-level

`strings.TrimSpace` removes leading and trailing Unicode whitespace
runes.  On bytes this strips, at either end, repeatedly, the UTF-8
encoding of a whitespace rune.  Go's whitespace runes (`unicode.IsSpace`)
are: U+0009..U+000D, U+0020 (the ASCII ones, single bytes 9..13 and 32),
U+0085 (C2 85), U+00A0 (C2 A0), U+1680 (E1 9A 80), U+2000..U+200A
(E2 80 80..8A), U+2028 (E2 80 A8), U+2029 (E2 80 A9), U+202F (E2 80 AF),
U+205F (E2 81 9F) and U+3000 (E3 80 80).  An invalid encoding decodes to
U+FFFD, which is not whitespace, so trimming stops there — exactly as the
pattern match below does. -/

/-- Is `c` the final byte of a three-byte whitespace rune starting with
E2 80, i.e. U+2000..U+200A, U+2028, U+2029 or U+202F? -/
def isE280SpaceByte (c : Nat) : Bool :=
  (0x80 ≤ c && c ≤ 0x8A) || c = 0xA8 || c = 0xA9 || c = 0xAF

/-- Strip one leading whitespace rune (UTF-8 encoded) from a byte string. -/
def trimLeftSpace : Bytes → Bytes
  | 9 :: r => trimLeftSpace r
  | 10 :: r => trimLeftSpace r
  | 11 :: r => trimLeftSpace r
  | 12 :: r => trimLeftSpace r
  | 13 :: r => trimLeftSpace r
  | 32 :: r => trimLeftSpace r
  | 0xC2 :: 0x85 :: r => trimLeftSpace r
  | 0xC2 :: 0xA0 :: r => trimLeftSpace r
  | 0xE1 :: 0x9A :: 0x80 :: r => trimLeftSpace r
  | 0xE2 :: 0x80 :: c :: r =>
      if isE280SpaceByte c then trimLeftSpace r else 0xE2 :: 0x80 :: c :: r
  | 0xE2 :: 0x81 :: 0x9F :: r => trimLeftSpace r
  | 0xE3 :: 0x80 :: 0x80 :: r => trimLeftSpace r
  | s => s

/-- Strip trailing whitespace runes, working on the REVERSED byte string
(so the patterns are the reversed rune encodings). -/
def trimRightSpaceRev : Bytes → Bytes
  | 9 :: r => trimRightSpaceRev r
  | 10 :: r => trimRightSpaceRev r
  | 11 :: r => trimRightSpaceRev r
  | 12 :: r => trimRightSpaceRev r
  | 13 :: r => trimRightSpaceRev r
  | 32 :: r => trimRightSpaceRev r
  | 0x85 :: 0xC2 :: r => trimRightSpaceRev r
  | 0xA0 :: 0xC2 :: r => trimRightSpaceRev r
  | 0x80 :: 0x9A :: 0xE1 :: r => trimRightSpaceRev r
  | 0x9F :: 0x81 :: 0xE2 :: r => trimRightSpaceRev r
  | 0x80 :: 0x80 :: 0xE3 :: r => trimRightSpaceRev r
  | c :: 0x80 :: 0xE2 :: r =>
      if isE280SpaceByte c then trimRightSpaceRev r else c :: 0x80 :: 0xE2 :: r
  | s => s

/-- Model of `strings.TrimSpace` over UTF-8 bytes: trim whitespace runes from both
ends. -/
def trimSpace (s : Bytes) : Bytes :=
  (trimRightSpaceRev (trimLeftSpace s).reverse).reverse

/-! ## Data model (`Feed`, `Source`, `FeedItem`) -/

/-- The dynamic (`interface{}`) value held in an entry's `meta` map. -/
inductive MetaVal where
  /-- The nil interface: an absent key or a JSON `null`. -/
  | vnil : MetaVal
  /-- A string value. -/
  | vstr : Bytes → MetaVal
  /-- Any non-nil, non-string value (number, bool, array, object). -/
  | vother : MetaVal
deriving DecidableEq

/-- Go map read with zero value `nil`: `entry.Meta["description"]`. -/
def metaLookup : List (String × MetaVal) → String → MetaVal
  | [], _ => MetaVal.vnil
  | (k, v) :: t, key => if k = key then v else metaLookup t key

/-- One article/entry of the feed (`FeedItem` in `feed.go`). -/
structure FeedItem where
  Title : String
  Link : String
  Image : String
  Meta : List (String × MetaVal)
  Description : Bytes
deriving DecidableEq

instance : Inhabited FeedItem := ⟨⟨"", "", "", [], []⟩⟩

/-- Alias for `type FeedItems []FeedItem`. -/
abbrev FeedItems := List FeedItem

/-- A feed authority (`Source` in `feed.go`). -/
structure Source where
  FeedUrl : String
  Title : String
  Url : String
  Entries : List Int
deriving DecidableEq

/-- The root feed document (`Feed` in `feed.go`).  The two Go maps are
association lists; the list order of `Feeds` stands for the (arbitrary)
iteration order of the Go map. -/
structure Feed where
  Feeds : List (String × Source)
  Entries : FeedItems
  Items : List (String × FeedItems)
deriving DecidableEq

/-- The zero `Feed` value: the package-level `feed` variable before any
fetch (nil maps and slices). -/
def initialFeed : Feed := { Feeds := [], Entries := [], Items := [] }

/-! ## Association-list operations mirroring Go map reads and writes -/

/-- Go's two-result map read `items, exists := feed.Items[name]`. -/
def mapLookup : List (String × FeedItems) → String → Option FeedItems
  | [], _ => none
  | (k, v) :: t, key => if k = key then some v else mapLookup t key

/-- Go map write `feed.Items[k] = v`: overwrite an existing key or add a
new one. -/
def mapSet : List (String × FeedItems) → String → FeedItems → List (String × FeedItems)
  | [], key, v => [(key, v)]
  | (k, w) :: t, key, v => if k = key then (key, v) :: t else (k, w) :: mapSet t key v

/-- Go's one-result map read `feed.Items[k]`: zero value (nil slice,
i.e. `[]`) for a missing key. -/
def mapGet (m : List (String × FeedItems)) (k : String) : FeedItems :=
  (mapLookup m k).getD []

/-- Model of `feed.Items[k] = append(feed.Items[k], e)`. -/
def appendItem (m : List (String × FeedItems)) (k : String) (e : FeedItem) :
    List (String × FeedItems) :=
  mapSet m k (mapGet m k ++ [e])

/-! ## The description pass (lines 150–158 of `feed.go`) -/

/-- Model of `min := int(math.Min(float64(len(desc)), 150)); desc[:min]`. -/
def truncate150 (d : Bytes) : Bytes :=
  d.take (Nat.min d.length 150)

/-- Compute one entry's derived description, as the loop body does:
`desc := ""`; if `meta["description"]` is non-nil, the value is run
through the UNCHECKED type assertion `aDesc.(string)` — a panic (`none`)
when it is not a string — then trimmed; finally truncated to 150 bytes
and stored in the entry. -/
def setDescription (e : FeedItem) : Option FeedItem :=
  match metaLookup e.Meta "description" with
  | MetaVal.vnil => some { e with Description := truncate150 [] }
  | MetaVal.vstr s => some { e with Description := truncate150 (trimSpace s) }
  | MetaVal.vother => none

/-- The description loop over all entries. -/
def setDescriptions : FeedItems → Option FeedItems
  | [] => some []
  | e :: t =>
    match setDescription e, setDescriptions t with
    | some e', some t' => some (e' :: t')
    | _, _ => none

/-! ## The grouping pass (lines 160–167 of `feed.go`) -/

/-- Model of `feed.Entries[i]` with a Go `int` index: panics (`none`) when `i` is
negative or past the end. -/
def resolveIndex (entries : FeedItems) (i : Int) : Option FeedItem :=
  if i < 0 then none else entries.get? i.toNat

/-- The entry a valid index denotes (used to state theorems; under the
in-bounds hypotheses it coincides with `resolveIndex`). -/
def entryAt (entries : FeedItems) (i : Int) : FeedItem :=
  (resolveIndex entries i).getD default

/-- Inner grouping loop: `for _, i := range s.Entries { entry :=
feed.Entries[i]; feed.Items[s.Title] = append(..., entry) }`. -/
def groupIdxs (entries : FeedItems) (title : String) :
    List Int → List (String × FeedItems) → Option (List (String × FeedItems))
  | [], m => some m
  | i :: t, m =>
    match resolveIndex entries i with
    | none => none
    | some e => groupIdxs entries title t (appendItem m title e)

/-- Outer grouping loop over the sources. -/
def groupSources (entries : FeedItems) :
    List (String × Source) → List (String × FeedItems) → Option (List (String × FeedItems))
  | [], m => some m
  | (_, s) :: t, m =>
    match groupIdxs entries s.Title s.Entries m with
    | none => none
    | some m' => groupSources entries t m'

/-! ## `processFeed` (lines 133–168 of `feed.go`) -/

/-- The `AddSource` notifications (lines 142–148): one call per source
whose title is non-empty, in map-iteration order. -/
def sourceTitles : List (String × Source) → List String
  | [] => []
  | (_, s) :: t => if s.Title = "" then sourceTitles t else s.Title :: sourceTitles t

/-- Model of `processFeed`: returns the `AddSource` calls made (they are issued
before the fallible loops run) and, unless one of the later loops
panics, the new feed value.  The Go code assigns `Items["all"] =
feed.Entries` before the description loop, but the slice aliases the
backing array the loop then mutates, so `Items["all"]` observes the
descriptions; the pure model therefore installs the post-description
entries under `"all"`. -/
def processFeed (f : Feed) : List String × Option Feed :=
  (sourceTitles f.Feeds,
    match setDescriptions f.Entries with
    | none => none
    | some entries2 =>
      (groupSources entries2 f.Feeds [("all", entries2)]).map
        (fun items => { f with Entries := entries2, Items := items }))

/-! ## `FeedByName` (lines 72–80 of `feed.go`) -/

/-- One `retriever.AddFeed(title, description, image, link)` call. -/
structure AddFeedCall where
  title : String
  description : Bytes
  image : String
  link : String
deriving DecidableEq

/-- The calls `FeedByName` makes on its retriever. -/
structure FeedByNameResult where
  addFeedCalls : List AddFeedCall
  finishCalls : Nat
deriving DecidableEq

/-- Model of `FeedByName(name, retriever)`. -/
def FeedByName (f : Feed) (name : String) : FeedByNameResult :=
  match mapLookup f.Items name with
  | some items =>
    { addFeedCalls := items.map (fun i => ⟨i.Title, i.Description, i.Image, i.Link⟩),
      finishCalls := 1 }
  | none => { addFeedCalls := [], finishCalls := 1 }

/-! ## `GetFeed` (lines 86–129 of `feed.go`) -/

/-- Model of `supportedLocales` (the package-level map; reading it yields `false`
for any other key). -/
def supportedLocales (l : String) : Bool :=
  l = "en_US" || l = "fa_IR" || l = "fa" || l = "zh_CN"

/-- Model of `fmt.Sprintf(feedEndpoint, locale)` for the constant template
`https://feeds.getiantem.org/%s/feed.json`. -/
def feedEndpointUrl (locale : String) : String :=
  "https://feeds.getiantem.org/" ++ locale ++ "/feed.json"

/-- The URL `GetFeed` requests: unsupported locales silently fall back
to `en_US` (lines 91–97). -/
def feedUrlOf (locale : String) : String :=
  feedEndpointUrl (if supportedLocales locale then locale else "en_US")

/-- Where, if anywhere, the fetch fails.  `reqError` = `http.NewRequest`
failed, `clientError` = `util.HTTPClient` failed (only reachable with a
non-empty proxy address), `doError` = `httpClient.Do` failed,
`readError` = `ioutil.ReadAll` failed; `success body` = the response
body was read in full. -/
inductive FetchOutcome where
  | reqError : FetchOutcome
  | clientError : FetchOutcome
  | doError : FetchOutcome
  | readError : FetchOutcome
  | success : Bytes → FetchOutcome

/-- Model of `json.Unmarshal(contents, &feed)` as an oracle: from the body bytes
and the previous feed value it produces the (possibly partially)
decoded feed value and a flag standing for the returned `error` being
nil.  The Go code discards that error. -/
def Decoder := Bytes → Feed → Feed × Bool

/-- What a `GetFeed` run did: the URL it requested, the final value of
the package-level `feed` variable (`none` when `processFeed` panicked —
the process died), and the `AddSource` calls made. -/
structure GetFeedResult where
  url : String
  feed : Option Feed
  addSourceCalls : List String

/-- Model of `GetFeed(locale, proxyAddr, provider)`, parameterised by the fetch
outcome and the decode oracle.  Every pre-decode failure logs and
returns, leaving `feed` untouched; a successful read decodes (ignoring
the decode error) and runs `processFeed`. -/
def GetFeed (locale : String) (proxyAddr : String) (decode : Decoder)
    (outcome : FetchOutcome) (prev : Feed) : GetFeedResult :=
  match outcome with
  | FetchOutcome.success body =>
    let f1 := (decode body prev).1
    let pr := processFeed f1
    { url := feedUrlOf locale, feed := pr.2, addSourceCalls := pr.1 }
  | _ => { url := feedUrlOf locale, feed := some prev, addSourceCalls := [] }

/-! ## Lemmas about the association-list map operations -/

theorem mapLookup_set_self (m : List (String × FeedItems)) (k : String) (v : FeedItems) :
    mapLookup (mapSet m k v) k = some v := by
  induction m with
  | nil => simp [mapSet, mapLookup]
  | cons p t ih =>
    obtain ⟨k', w⟩ := p
    by_cases h : k' = k
    · simp [mapSet, h, mapLookup]
    · simp [mapSet, h, mapLookup, ih]

theorem mapLookup_set_ne (m : List (String × FeedItems)) (k key : String) (v : FeedItems)
    (h : key ≠ k) : mapLookup (mapSet m k v) key = mapLookup m key := by
  induction m with
  | nil => simp [mapSet, mapLookup, Ne.symm h]
  | cons p t ih =>
    obtain ⟨k', w⟩ := p
    by_cases hk : k' = k
    · subst hk
      simp [mapSet, mapLookup, Ne.symm h]
    · simp [mapSet, hk, mapLookup, ih]

theorem mapGet_append_self (m : List (String × FeedItems)) (k : String) (e : FeedItem) :
    mapGet (appendItem m k e) k = mapGet m k ++ [e] := by
  simp [appendItem, mapGet, mapLookup_set_self]

theorem mapLookup_append_ne (m : List (String × FeedItems)) (k key : String) (e : FeedItem)
    (h : key ≠ k) : mapLookup (appendItem m k e) key = mapLookup m key := by
  simp [appendItem, mapLookup_set_ne m k key _ h]

/-! ## Lemmas about index resolution and grouping -/

theorem resolveIndex_isSome (entries : FeedItems) (i : Int) :
    (resolveIndex entries i).isSome ↔ 0 ≤ i ∧ i.toNat < entries.length := by
  unfold resolveIndex
  split
  · simp only [Option.isSome_none, Bool.false_eq_true, false_iff]
    omega
  · rw [Option.isSome_iff_ne_none]
    rw [ne_eq, List.get?_eq_none]
    omega

theorem resolveIndex_eq_entryAt (entries : FeedItems) (i : Int) (e : FeedItem)
    (h : resolveIndex entries i = some e) : e = entryAt entries i := by
  simp [entryAt, h]

theorem groupIdxs_isSome (entries : FeedItems) (title : String) (idxs : List Int)
    (m : List (String × FeedItems)) :
    (groupIdxs entries title idxs m).isSome ↔ ∀ i ∈ idxs, (resolveIndex entries i).isSome := by
  induction idxs generalizing m with
  | nil => simp [groupIdxs]
  | cons i t ih =>
    unfold groupIdxs
    cases h : resolveIndex entries i with
    | none => simp [h]
    | some e => simp [h, ih]

theorem groupIdxs_mapGet_self (entries : FeedItems) (title : String) (idxs : List Int)
    (m m' : List (String × FeedItems)) (h : groupIdxs entries title idxs m = some m') :
    mapGet m' title = mapGet m title ++ idxs.map (entryAt entries) := by
  induction idxs generalizing m with
  | nil =>
    simp only [groupIdxs, Option.some.injEq] at h
    subst h
    simp
  | cons i t ih =>
    unfold groupIdxs at h
    cases hr : resolveIndex entries i with
    | none => simp [hr] at h
    | some e =>
      rw [hr] at h
      have := ih (appendItem m title e) h
      rw [this, mapGet_append_self]
      have he : entryAt entries i = e := (resolveIndex_eq_entryAt entries i e hr).symm
      simp [he]

theorem groupIdxs_lookup_ne (entries : FeedItems) (title key : String) (idxs : List Int)
    (m m' : List (String × FeedItems)) (h : groupIdxs entries title idxs m = some m')
    (hne : key ≠ title) : mapLookup m' key = mapLookup m key := by
  induction idxs generalizing m with
  | nil =>
    simp only [groupIdxs, Option.some.injEq] at h
    subst h; rfl
  | cons i t ih =>
    unfold groupIdxs at h
    cases hr : resolveIndex entries i with
    | none => simp [hr] at h
    | some e =>
      rw [hr] at h
      rw [ih (appendItem m title e) h, mapLookup_append_ne _ _ _ _ hne]

theorem groupSources_isSome (entries : FeedItems) (srcs : List (String × Source))
    (m : List (String × FeedItems)) :
    (groupSources entries srcs m).isSome ↔
      ∀ p ∈ srcs, ∀ i ∈ p.2.Entries, (resolveIndex entries i).isSome := by
  induction srcs generalizing m with
  | nil => simp [groupSources]
  | cons p t ih =>
    obtain ⟨k, s⟩ := p
    unfold groupSources
    cases h : groupIdxs entries s.Title s.Entries m with
    | none =>
      have hno : ¬ ∀ i ∈ s.Entries, (resolveIndex entries i).isSome := by
        intro hall
        have := (groupIdxs_isSome entries s.Title s.Entries m).mpr hall
        rw [h] at this
        simp at this
      simp only [Option.isSome_none, Bool.false_eq_true, false_iff]
      intro hall
      exact hno (hall (k, s) (by simp))
    | some m₁ =>
      have hyes : ∀ i ∈ s.Entries, (resolveIndex entries i).isSome := by
        have : (groupIdxs entries s.Title s.Entries m).isSome := by rw [h]; rfl
        exact (groupIdxs_isSome entries s.Title s.Entries m).mp this
      rw [ih m₁]
      constructor
      · intro hall
        rintro q hq i hi
        rcases List.mem_cons.mp hq with hq | hq
        · subst hq; exact hyes i hi
        · exact hall q hq i hi
      · intro hall q hq i hi
        exact hall q (List.mem_cons_of_mem _ hq) i hi

/-- What grouping deposits under a key: the concatenation, over the
sources bearing exactly that title (in iteration order), of their
resolved entry lists. -/
theorem groupSources_mapGet (entries : FeedItems) (srcs : List (String × Source))
    (m m' : List (String × FeedItems)) (h : groupSources entries srcs m = some m')
    (key : String) :
    mapGet m' key = mapGet m key ++
      (srcs.filter (fun p => p.2.Title = key)).flatMap
        (fun p => p.2.Entries.map (entryAt entries)) := by
  induction srcs generalizing m with
  | nil =>
    simp only [groupSources, Option.some.injEq] at h
    subst h; simp
  | cons p t ih =>
    obtain ⟨k, s⟩ := p
    unfold groupSources at h
    cases hg : groupIdxs entries s.Title s.Entries m with
    | none => rw [hg] at h; simp at h
    | some m₁ =>
      rw [hg] at h
      by_cases ht : s.Title = key
      · subst ht
        rw [ih m₁ h]
        rw [groupIdxs_mapGet_self entries s.Title s.Entries m m₁ hg]
        simp [List.filter]
      · have : mapGet m₁ key = mapGet m key := by
          unfold mapGet
          rw [groupIdxs_lookup_ne entries s.Title key s.Entries m m₁ hg (fun hh => ht hh.symm)]
        rw [ih m₁ h, this]
        simp [List.filter, ht]

theorem groupSources_lookup_ne (entries : FeedItems) (srcs : List (String × Source))
    (m m' : List (String × FeedItems)) (h : groupSources entries srcs m = some m')
    (key : String) (hkey : ∀ p ∈ srcs, p.2.Title ≠ key) :
    mapLookup m' key = mapLookup m key := by
  induction srcs generalizing m with
  | nil =>
    simp only [groupSources, Option.some.injEq] at h
    subst h; rfl
  | cons p t ih =>
    obtain ⟨k, s⟩ := p
    unfold groupSources at h
    cases hg : groupIdxs entries s.Title s.Entries m with
    | none => rw [hg] at h; simp at h
    | some m₁ =>
      rw [hg] at h
      have h1 : mapLookup m₁ key = mapLookup m key :=
        groupIdxs_lookup_ne entries s.Title key s.Entries m m₁ hg
          (fun hh => hkey (k, s) (by simp) hh.symm)
      rw [ih m₁ h (fun q hq => hkey q (List.mem_cons_of_mem _ hq)), h1]

/-! ## Lemmas about the description pass -/

theorem setDescription_isSome (e : FeedItem) :
    (setDescription e).isSome ↔ metaLookup e.Meta "description" ≠ MetaVal.vother := by
  unfold setDescription
  cases metaLookup e.Meta "description" <;> simp

theorem setDescriptions_isSome (l : FeedItems) :
    (setDescriptions l).isSome ↔ ∀ e ∈ l, (setDescription e).isSome := by
  induction l with
  | nil => simp [setDescriptions]
  | cons e t ih =>
    unfold setDescriptions
    cases he : setDescription e <;> cases ht : setDescriptions t <;>
      simp_all

theorem setDescriptions_get? (l l' : FeedItems) (h : setDescriptions l = some l') (i : Nat) :
    l'.get? i = (l.get? i).bind setDescription := by
  induction l generalizing l' i with
  | nil =>
    simp only [setDescriptions, Option.some.injEq] at h
    subst h; simp
  | cons e t ih =>
    unfold setDescriptions at h
    cases he : setDescription e <;> rw [he] at h <;>
      cases ht : setDescriptions t <;> rw [ht] at h <;> simp only [] at h
    case some.some e' t' =>
      cases h
      cases i with
      | zero => simp [he]
      | succ n => simpa using ih t' ht n
    all_goals cases h

/-! ## Lemmas about the `AddSource` notifications -/

theorem sourceTitles_ne_empty (l : List (String × Source)) : "" ∉ sourceTitles l := by
  induction l with
  | nil => simp [sourceTitles]
  | cons p t ih =>
    obtain ⟨k, s⟩ := p
    by_cases h : s.Title = ""
    · simpa [sourceTitles, h] using ih
    · simp [sourceTitles, h, List.mem_cons, ih, Ne.symm h]

theorem sourceTitles_count (l : List (String × Source)) (t : String) (ht : t ≠ "") :
    (sourceTitles l).count t = (l.filter (fun p => p.2.Title = t)).length := by
  induction l with
  | nil => simp [sourceTitles]
  | cons p r ih =>
    obtain ⟨k, s⟩ := p
    by_cases h : s.Title = ""
    · have hne : ¬ (s.Title = t) := by rw [h]; exact Ne.symm ht
      simp [sourceTitles, h, List.filter, hne, Ne.symm ht, ih]
    · by_cases hst : s.Title = t
      · simp [sourceTitles, h, List.filter, hst, ht, ih]
      · simp [sourceTitles, h, List.filter, hst, ih, List.count_cons_of_ne (Ne.symm hst)]

/-! ## Lemmas about `processFeed` and `FeedByName` -/

theorem processFeed_fst (f : Feed) : (processFeed f).1 = sourceTitles f.Feeds := rfl

theorem processFeed_some (f : Feed) (calls : List String) (f' : Feed)
    (hp : processFeed f = (calls, some f')) :
    calls = sourceTitles f.Feeds ∧
    ∃ entries2, setDescriptions f.Entries = some entries2 ∧
      groupSources entries2 f.Feeds [("all", entries2)] = some f'.Items ∧
      f'.Entries = entries2 ∧ f'.Feeds = f.Feeds := by
  have h1 : calls = sourceTitles f.Feeds := by
    have := congrArg Prod.fst hp
    simpa [processFeed] using this.symm
  have h2 : (processFeed f).2 = some f' := by rw [hp]
  simp only [processFeed] at h2
  refine ⟨h1, ?_⟩
  cases hd : setDescriptions f.Entries with
  | none => rw [hd] at h2; simp at h2
  | some entries2 =>
    rw [hd] at h2
    simp only [] at h2
    cases hg : groupSources entries2 f.Feeds [("all", entries2)] with
    | none => rw [hg] at h2; simp at h2
    | some items =>
      rw [hg] at h2
      simp only [Option.map_some', Option.some.injEq] at h2
      subst h2
      exact ⟨entries2, rfl, hg, rfl, rfl⟩

theorem feedByName_addFeedCalls (f : Feed) (name : String) :
    (FeedByName f name).addFeedCalls =
      (mapGet f.Items name).map (fun i => ⟨i.Title, i.Description, i.Image, i.Link⟩) := by
  unfold FeedByName mapGet
  cases mapLookup f.Items name <;> simp

theorem feedByName_finishCalls (f : Feed) (name : String) :
    (FeedByName f name).finishCalls = 1 := by
  unfold FeedByName
  cases mapLookup f.Items name <;> simp

/-- With pairwise-distinct source titles, the sources bearing a given
member's title are exactly that member. -/
theorem filter_title_eq_single (srcs : List (String × Source)) (k₀ : String) (s₀ : Source)
    (hnodup : (srcs.map (fun p => p.2.Title)).Nodup) (hmem : (k₀, s₀) ∈ srcs) :
    srcs.filter (fun p => p.2.Title = s₀.Title) = [(k₀, s₀)] := by
  induction srcs with
  | nil => simp at hmem
  | cons p t ih =>
    simp only [List.map_cons, List.nodup_cons] at hnodup
    obtain ⟨hnotin, hnd⟩ := hnodup
    rcases List.mem_cons.mp hmem with heq | hmem'
    · subst heq
      have hnil : t.filter (fun p => p.2.Title = s₀.Title) = [] := by
        rw [List.filter_eq_nil_iff]
        intro a ha
        simp only [decide_eq_true_eq]
        intro hcontra
        exact hnotin (List.mem_map.mpr ⟨a, ha, hcontra⟩)
      simp [List.filter, hnil]
    · have hin : s₀.Title ∈ t.map (fun p => p.2.Title) :=
        List.mem_map.mpr ⟨(k₀, s₀), hmem', rfl⟩
      have hne : ¬ (p.2.Title = s₀.Title) := fun hh => hnotin (hh ▸ hin)
      simp [List.filter, hne, ih hnd hmem']

/-- Truncation lemma: `truncate150` is plain 150-byte truncation. -/
theorem truncate150_eq_take (d : Bytes) : truncate150 d = d.take 150 := by
  unfold truncate150
  rcases Nat.le_total d.length 150 with h | h
  · have hm : Nat.min d.length 150 = d.length := by
      show min d.length 150 = d.length
      omega
    rw [hm, List.take_length, List.take_of_length_le h]
  · have hm : Nat.min d.length 150 = 150 := by
      show min d.length 150 = 150
      omega
    rw [hm]

/-! ## The claims -/

/-- C3: for every input locale, `GetFeed` builds the request URL from
`en_US` when the locale is not one of {en_US, fa_IR, fa, zh_CN}, and
from the exact locale string when it is, substituted into the fixed
endpoint template. -/
theorem claim3_locale_fallback (locale proxyAddr : String) (dec : Decoder)
    (outcome : FetchOutcome) (prev : Feed) :
    (¬ (locale = "en_US" ∨ locale = "fa_IR" ∨ locale = "fa" ∨ locale = "zh_CN") →
      (GetFeed locale proxyAddr dec outcome prev).url =
        "https://feeds.getiantem.org/" ++ "en_US" ++ "/feed.json") ∧
    ((locale = "en_US" ∨ locale = "fa_IR" ∨ locale = "fa" ∨ locale = "zh_CN") →
      (GetFeed locale proxyAddr dec outcome prev).url =
        "https://feeds.getiantem.org/" ++ locale ++ "/feed.json") := by
  have hurl : (GetFeed locale proxyAddr dec outcome prev).url = feedUrlOf locale := by
    cases outcome <;> rfl
  constructor
  · intro h
    push_neg at h
    obtain ⟨h1, h2, h3, h4⟩ := h
    have hs : supportedLocales locale = false := by
      simp [supportedLocales, h1, h2, h3, h4]
    rw [hurl]
    simp [feedUrlOf, hs, feedEndpointUrl]
  · intro h
    have hs : supportedLocales locale = true := by
      rcases h with h | h | h | h <;> simp [supportedLocales, h]
    rw [hurl]
    simp [feedUrlOf, hs, feedEndpointUrl]

theorem claim3_witness :
    (GetFeed "xx_XX" "" (fun _ f => (f, true)) FetchOutcome.reqError initialFeed).url =
      "https://feeds.getiantem.org/en_US/feed.json" ∧
    (GetFeed "fa" "" (fun _ f => (f, true)) FetchOutcome.reqError initialFeed).url =
      "https://feeds.getiantem.org/fa/feed.json" :=
  ⟨((claim3_locale_fallback "xx_XX" "" (fun _ f => (f, true)) FetchOutcome.reqError
      initialFeed).1 (by decide)).trans (by decide),
   ((claim3_locale_fallback "fa" "" (fun _ f => (f, true)) FetchOutcome.reqError
      initialFeed).2 (by decide)).trans (by decide)⟩

/-- C4: `FeedByName` streams, for a known name, one `AddFeed` per entry
of the group in stored order with that entry's title, derived
description, image and link; it calls `Finish` exactly once in every
case; an unknown name (including on the never-fetched zero feed) yields
no `AddFeed` calls and no error. -/
theorem claim4_feedByName (f : Feed) (name : String) :
    (FeedByName f name).finishCalls = 1 ∧
    (∀ g, mapLookup f.Items name = some g →
      (FeedByName f name).addFeedCalls =
        g.map (fun i => ⟨i.Title, i.Description, i.Image, i.Link⟩)) ∧
    (mapLookup f.Items name = none → (FeedByName f name).addFeedCalls = []) ∧
    FeedByName initialFeed name = { addFeedCalls := [], finishCalls := 1 } := by
  refine ⟨feedByName_finishCalls f name, ?_, ?_, rfl⟩
  · intro g hg
    unfold FeedByName
    rw [hg]
  · intro hg
    unfold FeedByName
    rw [hg]

/-- A fetched-and-indexed feed used to exercise `FeedByName`. -/
def c4Feed : Feed :=
  { Feeds := [], Entries := [],
    Items := [("X", [{ Title := "A", Link := "lA", Image := "iA", Meta := [],
                       Description := [104] }])] }

theorem claim4_witness :
    (FeedByName c4Feed "X").addFeedCalls =
      [{ title := "A", description := [104], image := "iA", link := "lA" }] ∧
    (FeedByName c4Feed "nope").addFeedCalls = [] ∧
    (FeedByName c4Feed "X").finishCalls = 1 :=
  ⟨((claim4_feedByName c4Feed "X").2.1
      [{ Title := "A", Link := "lA", Image := "iA", Meta := [], Description := [104] }]
      (by decide)).trans (by decide),
   (claim4_feedByName c4Feed "nope").2.2.1 (by decide),
   (claim4_feedByName c4Feed "X").1⟩

/-- C5: a failure while constructing the request, constructing the
client, performing the request or reading the body aborts `GetFeed`:
the feed state keeps its previous value and no `AddSource` call is
made. -/
theorem claim5_fetch_failure_aborts (locale proxyAddr : String) (dec : Decoder)
    (outcome : FetchOutcome) (prev : Feed)
    (h : ∀ body, outcome ≠ FetchOutcome.success body) :
    (GetFeed locale proxyAddr dec outcome prev).feed = some prev ∧
    (GetFeed locale proxyAddr dec outcome prev).addSourceCalls = [] := by
  cases outcome with
  | success body => exact absurd rfl (h body)
  | reqError => exact ⟨rfl, rfl⟩
  | clientError => exact ⟨rfl, rfl⟩
  | doError => exact ⟨rfl, rfl⟩
  | readError => exact ⟨rfl, rfl⟩

theorem claim5_witness :
    (GetFeed "en_US" "127.0.0.1:8080" (fun _ f => (f, true)) FetchOutcome.doError
      initialFeed).feed = some initialFeed ∧
    (GetFeed "en_US" "127.0.0.1:8080" (fun _ f => (f, true)) FetchOutcome.doError
      initialFeed).addSourceCalls = [] :=
  claim5_fetch_failure_aborts "en_US" "127.0.0.1:8080" (fun _ f => (f, true))
    FetchOutcome.doError initialFeed (fun body => by simp)

/-- C6: a JSON decode failure is not fatal: the run behaves exactly as
if decoding had reported success — `processFeed` still runs on the
(possibly partially decoded) value and its `AddSource` calls still
fire. -/
theorem claim6_decode_error_ignored (locale proxyAddr : String) (prev : Feed) (body : Bytes)
    (dec : Decoder) :
    (GetFeed locale proxyAddr dec (FetchOutcome.success body) prev).addSourceCalls =
      (processFeed (dec body prev).1).1 ∧
    GetFeed locale proxyAddr dec (FetchOutcome.success body) prev =
      GetFeed locale proxyAddr (fun b f => ((dec b f).1, true))
        (FetchOutcome.success body) prev :=
  ⟨rfl, rfl⟩

/-- C9: grouping succeeds exactly when every index listed by every
source is a valid position into `Entries`; any out-of-range index makes
grouping fault (the unchecked `feed.Entries[i]`). -/
theorem claim9_grouping_bounds (entries : FeedItems) (srcs : List (String × Source))
    (m : List (String × FeedItems)) :
    (groupSources entries srcs m).isSome ↔
      ∀ p ∈ srcs, ∀ i ∈ p.2.Entries, 0 ≤ i ∧ i.toNat < entries.length := by
  rw [groupSources_isSome]
  constructor
  · intro h p hp i hi
    exact (resolveIndex_isSome entries i).mp (h p hp i hi)
  · intro h p hp i hi
    exact (resolveIndex_isSome entries i).mpr (h p hp i hi)

/-- A source titled "X" with no entries. -/
def srcX : Source := { FeedUrl := "", Title := "X", Url := "", Entries := [] }

/-- A feed whose source map holds two distinct keys whose sources share
the title "X" — perfectly possible on the wire, where the map key is the
source identifier and the title a field. -/
def dupTitleFeed : Feed :=
  { Feeds := [("a", srcX), ("b", srcX)], Entries := [], Items := [] }

/-- C7 counterexample: on `dupTitleFeed`, the distinct non-empty title
"X" triggers `AddSource` twice, not exactly once — the loop notifies
once per SOURCE, not once per distinct title. -/
theorem claim7_counterexample :
    (processFeed dupTitleFeed).1.count "X" = 2 ∧
    ¬ ((processFeed dupTitleFeed).1.count "X" = 1) := by
  constructor <;> decide

/-- C7 amended: a source with empty title never triggers `AddSource`;
`AddSource` fires once per source with a non-empty title, so a title
borne by several sources is announced once per source (its call count
is the number of sources bearing it). -/
theorem claim7_amended (f : Feed) :
    "" ∉ (processFeed f).1 ∧
    ∀ t, t ≠ "" →
      (processFeed f).1.count t = (f.Feeds.filter (fun p => p.2.Title = t)).length := by
  constructor
  · rw [processFeed_fst]
    exact sourceTitles_ne_empty f.Feeds
  · intro t ht
    rw [processFeed_fst]
    exact sourceTitles_count f.Feeds t ht

theorem claim7_witness :
    "" ∉ (processFeed dupTitleFeed).1 ∧
    (processFeed dupTitleFeed).1.count "X" =
      (dupTitleFeed.Feeds.filter (fun p => p.2.Title = "X")).length :=
  ⟨(claim7_amended dupTitleFeed).1, (claim7_amended dupTitleFeed).2 "X" (by decide)⟩

/-- An entry whose `meta` maps "description" to a non-string value. -/
def nonStringDescItem : FeedItem :=
  { Title := "A", Link := "", Image := "", Meta := [("description", MetaVal.vother)],
    Description := [] }

def nonStringDescFeed : Feed :=
  { Feeds := [], Entries := [nonStringDescItem], Items := [] }

/-- C8 counterexample: a present non-string `meta["description"]` does
NOT succeed with an empty description — the unchecked type assertion
`aDesc.(string)` is a fatal fault, and `processFeed` dies. -/
theorem claim8_counterexample :
    setDescription nonStringDescItem = none ∧
    (processFeed nonStringDescFeed).2 = none :=
  ⟨rfl, rfl⟩

/-- C8 amended: the derived-description computation is total over metas
whose "description" is absent/null (treated as the empty string) or a
string; a present non-string value is a fatal runtime fault. -/
theorem claim8_amended (entries : FeedItems) :
    ((∀ e ∈ entries, metaLookup e.Meta "description" ≠ MetaVal.vother) →
      ∃ l', setDescriptions entries = some l' ∧
        ∀ i e, entries.get? i = some e →
          metaLookup e.Meta "description" = MetaVal.vnil →
          l'.get? i = some { e with Description := [] }) ∧
    ((∃ e ∈ entries, metaLookup e.Meta "description" = MetaVal.vother) →
      setDescriptions entries = none) := by
  constructor
  · intro h
    have hsome : (setDescriptions entries).isSome := by
      rw [setDescriptions_isSome]
      intro e he
      rw [setDescription_isSome]
      exact h e he
    obtain ⟨l', hl'⟩ := Option.isSome_iff_exists.mp hsome
    refine ⟨l', hl', ?_⟩
    intro i e hei hmeta
    rw [setDescriptions_get? entries l' hl' i, hei]
    have hb : (some e).bind setDescription = setDescription e := rfl
    rw [hb]
    unfold setDescription
    rw [hmeta]
    simp [truncate150]
  · rintro ⟨e, he, hmeta⟩
    rw [← Option.not_isSome_iff_eq_none]
    rw [setDescriptions_isSome]
    intro hall
    have := hall e he
    rw [setDescription_isSome] at this
    exact this hmeta

/-- An entry with no description key at all (and pre-existing junk in
the derived field, to show it is overwritten). -/
def absentDescItem : FeedItem :=
  { Title := "B", Link := "", Image := "", Meta := [("author", MetaVal.vstr [106])],
    Description := [55] }

theorem claim8_witness :
    ∃ l', setDescriptions [absentDescItem] = some l' ∧
      ∀ i e, [absentDescItem].get? i = some e →
        metaLookup e.Meta "description" = MetaVal.vnil →
        l'.get? i = some { e with Description := [] } :=
  (claim8_amended [absentDescItem]).1 (by decide)

/-- C2: for every entry whose meta holds a string description, a
successful `processFeed` stores the trimmed value truncated to at most
150 bytes: exactly 150 bytes and a prefix of the trimmed original when
that is longer, the trimmed original itself when it fits. -/
theorem claim2_description (f : Feed) (calls : List String) (f' : Feed)
    (hp : processFeed f = (calls, some f'))
    (i : Nat) (e : FeedItem) (s : Bytes)
    (he : f.Entries.get? i = some e)
    (hs : metaLookup e.Meta "description" = MetaVal.vstr s) :
    ∃ e', f'.Entries.get? i = some e' ∧
      e'.Description = (trimSpace s).take 150 ∧
      (150 < (trimSpace s).length →
        e'.Description.length = 150 ∧ e'.Description <+: trimSpace s) ∧
      ((trimSpace s).length ≤ 150 → e'.Description = trimSpace s) := by
  obtain ⟨-, entries2, hd, -, hent, -⟩ := processFeed_some f calls f' hp
  refine ⟨{ e with Description := truncate150 (trimSpace s) }, ?_, ?_, ?_, ?_⟩
  · rw [hent, setDescriptions_get? f.Entries entries2 hd i, he]
    have hb : (some e).bind setDescription = setDescription e := rfl
    rw [hb]
    unfold setDescription
    rw [hs]
  · show truncate150 (trimSpace s) = (trimSpace s).take 150
    exact truncate150_eq_take (trimSpace s)
  · intro h150
    constructor
    · show (truncate150 (trimSpace s)).length = 150
      rw [truncate150_eq_take, List.length_take]
      omega
    · show truncate150 (trimSpace s) <+: trimSpace s
      rw [truncate150_eq_take]
      exact List.take_prefix 150 (trimSpace s)
  · intro hle
    show truncate150 (trimSpace s) = trimSpace s
    rw [truncate150_eq_take]
    exact List.take_of_length_le hle

/-- The bytes of `"  hello world  "`. -/
def helloPadBytes : Bytes :=
  [32, 32, 104, 101, 108, 108, 111, 32, 119, 111, 114, 108, 100, 32, 32]

/-- The bytes of `"hello world"`. -/
def helloBytes : Bytes := [104, 101, 108, 108, 111, 32, 119, 111, 114, 108, 100]

def helloItem : FeedItem :=
  { Title := "A", Link := "", Image := "",
    Meta := [("description", MetaVal.vstr helloPadBytes)], Description := [] }

def helloFeed : Feed := { Feeds := [], Entries := [helloItem], Items := [] }

/-- Value of `processFeed helloFeed`, written out. -/
def helloProcessed : Feed :=
  { Feeds := [], Entries := [{ helloItem with Description := helloBytes }],
    Items := [("all", [{ helloItem with Description := helloBytes }])] }

theorem claim2_witness :
    (∃ e', helloProcessed.Entries.get? 0 = some e' ∧
      e'.Description = (trimSpace helloPadBytes).take 150 ∧
      (150 < (trimSpace helloPadBytes).length →
        e'.Description.length = 150 ∧ e'.Description <+: trimSpace helloPadBytes) ∧
      ((trimSpace helloPadBytes).length ≤ 150 →
        e'.Description = trimSpace helloPadBytes)) ∧
    trimSpace helloPadBytes = helloBytes :=
  ⟨claim2_description helloFeed [] helloProcessed (by decide) 0 helloItem helloPadBytes
      (by decide) (by decide),
   by decide⟩

/-- Reading any key other than `"all"` from the freshly initialised
index (`Items["all"] = entries`) yields the zero value. -/
theorem mapGet_all_init (v : FeedItems) (key : String) (h : key ≠ "all") :
    mapGet [("all", v)] key = [] := by
  unfold mapGet mapLookup
  rw [if_neg (Ne.symm h)]
  rfl

def allTitledSrc : Source := { FeedUrl := "", Title := "all", Url := "", Entries := [0] }

def itemA : FeedItem := { Title := "A", Link := "", Image := "", Meta := [], Description := [] }

/-- A feed whose single source is titled `"all"`. -/
def allTitledFeed : Feed :=
  { Feeds := [("k", allTitledSrc)], Entries := [itemA], Items := [] }

/-- C1 counterexample: a source titled `"all"` appends its entries onto
the pre-seeded `Items["all"]` group, so after a successful `processFeed`
`Items["all"]` is NOT the full `Entries` sequence. -/
theorem claim1_counterexample :
    ∃ f', (processFeed allTitledFeed).2 = some f' ∧
      ¬ (mapGet f'.Items "all" = f'.Entries) :=
  ⟨_, rfl, by decide⟩

/-- C1 amended: provided the source titles are pairwise distinct and no
source is titled `"all"`, a successful `processFeed` yields
`Items["all"]` equal to the full (processed) `Entries` sequence and, for
every source, `Items[s.Title]` equal to the entries its index list
references, in the listed order. -/
theorem claim1_amended (f : Feed) (calls : List String) (f' : Feed)
    (hp : processFeed f = (calls, some f'))
    (hnodup : (f.Feeds.map (fun p => p.2.Title)).Nodup)
    (hnall : ∀ p ∈ f.Feeds, p.2.Title ≠ "all") :
    mapGet f'.Items "all" = f'.Entries ∧
    ∀ p ∈ f.Feeds, mapGet f'.Items p.2.Title = p.2.Entries.map (entryAt f'.Entries) := by
  obtain ⟨-, entries2, hd, hg, hent, -⟩ := processFeed_some f calls f' hp
  subst hent
  constructor
  · unfold mapGet
    rw [groupSources_lookup_ne f'.Entries f.Feeds [("all", f'.Entries)] f'.Items hg
      "all" hnall]
    simp [mapLookup]
  · intro p hp'
    rw [groupSources_mapGet f'.Entries f.Feeds [("all", f'.Entries)] f'.Items hg p.2.Title]
    have hfil : f.Feeds.filter (fun q => q.2.Title = p.2.Title) = [p] := by
      obtain ⟨k, s⟩ := p
      exact filter_title_eq_single f.Feeds k s hnodup hp'
    rw [hfil, mapGet_all_init f'.Entries p.2.Title (hnall p hp')]
    simp

def exItem0 : FeedItem := { Title := "E0", Link := "", Image := "", Meta := [], Description := [] }
def exItem1 : FeedItem := { Title := "E1", Link := "", Image := "", Meta := [], Description := [] }
def exItem2 : FeedItem := { Title := "E2", Link := "", Image := "", Meta := [], Description := [] }

def exSrcX : Source := { FeedUrl := "", Title := "X", Url := "", Entries := [0, 2] }

/-- The spec's example: sources `{"X": entries [0,2]}` and 3 entries. -/
def exFeedC1 : Feed :=
  { Feeds := [("X", exSrcX)], Entries := [exItem0, exItem1, exItem2], Items := [] }

/-- Value of `processFeed exFeedC1`, written out. -/
def exProcessedC1 : Feed :=
  { Feeds := [("X", exSrcX)], Entries := [exItem0, exItem1, exItem2],
    Items := [("all", [exItem0, exItem1, exItem2]), ("X", [exItem0, exItem2])] }

theorem claim1_witness :
    mapGet exProcessedC1.Items "all" = exProcessedC1.Entries ∧
    ∀ p ∈ exFeedC1.Feeds,
      mapGet exProcessedC1.Items p.2.Title = p.2.Entries.map (entryAt exProcessedC1.Entries) :=
  claim1_amended exFeedC1 ["X"] exProcessedC1 (by decide) (by decide) (by decide)

/-- C10: a source with empty title is excluded only from the `AddSource`
notification, not from grouping: with pairwise-distinct titles, its
entries land under the grouping key `""`, and `FeedByName ""` delivers
them via `AddFeed` although `""` was never announced. -/
theorem claim10_empty_title_grouped (f : Feed) (calls : List String) (f' : Feed)
    (k0 : String) (s0 : Source)
    (hp : processFeed f = (calls, some f'))
    (hmem : (k0, s0) ∈ f.Feeds)
    (htitle : s0.Title = "")
    (hnodup : (f.Feeds.map (fun p => p.2.Title)).Nodup) :
    "" ∉ calls ∧
    (FeedByName f' "").addFeedCalls =
      (s0.Entries.map (entryAt f'.Entries)).map
        (fun i => ⟨i.Title, i.Description, i.Image, i.Link⟩) ∧
    (FeedByName f' "").finishCalls = 1 := by
  obtain ⟨hc, entries2, hd, hg, hent, -⟩ := processFeed_some f calls f' hp
  subst hent
  refine ⟨?_, ?_, feedByName_finishCalls f' ""⟩
  · rw [hc]
    exact sourceTitles_ne_empty f.Feeds
  · rw [feedByName_addFeedCalls]
    rw [groupSources_mapGet f'.Entries f.Feeds [("all", f'.Entries)] f'.Items hg ""]
    have hfil : f.Feeds.filter (fun q => q.2.Title = "") = [(k0, s0)] := by
      have h1 := filter_title_eq_single f.Feeds k0 s0 hnodup hmem
      rw [htitle] at h1
      exact h1
    rw [hfil, mapGet_all_init f'.Entries "" (by decide)]
    simp

def c10Src : Source := { FeedUrl := "", Title := "", Url := "", Entries := [0] }

def c10Item : FeedItem :=
  { Title := "C", Link := "lc", Image := "ic", Meta := [], Description := [] }

def c10Feed : Feed := { Feeds := [("e", c10Src)], Entries := [c10Item], Items := [] }

/-- Value of `processFeed c10Feed`, written out. -/
def c10Processed : Feed :=
  { Feeds := [("e", c10Src)], Entries := [c10Item],
    Items := [("all", [c10Item]), ("", [c10Item])] }

theorem claim10_witness :
    "" ∉ ([] : List String) ∧
    (FeedByName c10Processed "").addFeedCalls =
      (c10Src.Entries.map (entryAt c10Processed.Entries)).map
        (fun i => ⟨i.Title, i.Description, i.Image, i.Link⟩) ∧
    (FeedByName c10Processed "").finishCalls = 1 :=
  claim10_empty_title_grouped c10Feed [] c10Processed "e" c10Src (by decide) (by decide)
    rfl (by decide)
